import Mathlib

/-!
Verification of the delegation engine of the LM Studio toolbox plugin
(`consult_secondary_agent` in `toolsProvider.ts`): the multi-turn agent
loop (`runAgentLoop`), its tool-call grammar parser, the refusal detector,
the post-loop code-artifact extractor, and the path-containment helper
`validatePath`.

The TypeScript source is shallowly embedded: JavaScript strings are Lean
`String`s (the inputs involved are ASCII, so UTF-16 length and Unicode
case-mapping subtleties do not arise), `JSON.parse` is modelled by an
executable JSON parser producing `JsValue` (JavaScript values, with
JavaScript truthiness), the regexes of the source are each modelled by a
dedicated executable matcher with the exact leftmost/greedy/lazy semantics
of the original pattern, and Node path handling (`join`, `resolve`) is
modelled for absolute POSIX base directories.  External effects (the
chat-completion endpoint and the tool handlers, which perform network and
file I/O) are oracles supplied as parameters; file writes and history-log
appends are recorded as an explicit effect trace.
-/

namespace Toolbox

/-! ## Basic character/string utilities (JavaScript semantics) -/

/-- Whitespace class of JavaScript `\s` (ASCII part: space, tab, LF, VT, FF, CR). -/
def jsWs (c : Char) : Bool :=
  c = ' ' || c = '\t' || c = '\n' || c = '\r' || c = Char.ofNat 11 || c = Char.ofNat 12

/-- JSON whitespace (space, tab, LF, CR), as accepted by `JSON.parse`. -/
def jsonWs (c : Char) : Bool :=
  c = ' ' || c = '\t' || c = '\n' || c = '\r'

/-- An apostrophe character, used to build source strings that quote words. -/
def apos : String := String.singleton (Char.ofNat 39)

/-- Tests whether `pat` is a prefix of `cs` (character lists). -/
def listStartsWith : List Char → List Char → Bool
  | [], _ => true
  | _ :: _, [] => false
  | p :: ps, c :: cs => p == c && listStartsWith ps cs

/-- Does `pat` occur as a contiguous sublist of `hay`?  Models
JavaScript `String.prototype.includes`. -/
def listOccurs (pat : List Char) : List Char → Bool
  | [] => listStartsWith pat []
  | c :: cs => listStartsWith pat (c :: cs) || listOccurs pat cs

/-- JavaScript `hay.includes(pat)`. -/
def strIncludes (hay pat : String) : Bool :=
  listOccurs pat.data hay.data

/-- JavaScript `toLowerCase` (ASCII case mapping suffices for the inputs involved). -/
def lowerStr (s : String) : String :=
  String.mk (s.data.map Char.toLower)

/-- JavaScript `trim`: strip `\s` from both ends. -/
def jsTrim (s : String) : String :=
  String.mk (((s.data.dropWhile jsWs).reverse.dropWhile jsWs).reverse)

/-- JavaScript `s.startsWith(pre)`. -/
def strStarts (s pre : String) : Bool :=
  listStartsWith pre.data s.data

/-- First index of character `c` in a list, if any. -/
def firstIdxOf (c : Char) : List Char → Option Nat
  | [] => none
  | x :: xs => if x = c then some 0 else (firstIdxOf c xs).map (· + 1)

/-- Last index of character `c` in a list, if any. -/
def lastIdxOf (c : Char) : List Char → Option Nat
  | [] => none
  | x :: xs =>
    match lastIdxOf c xs with
    | some i => some (i + 1)
    | none => if x = c then some 0 else none

/-- JavaScript `s.substring(a, b)` for `a ≤ b` (character indices). -/
def strSub (s : String) (a b : Nat) : String :=
  String.mk ((s.data.drop a).take (b - a))

/-- In-place span replacement used by the extractor:
`s.slice(0, idx) + rep + s.slice(idx + len)`. -/
def strSplice (s : String) (idx len : Nat) (rep : String) : String :=
  String.mk (s.data.take idx ++ rep.data ++ s.data.drop (idx + len))

/-- Split a character list on a separator character. -/
def splitOnChar (c : Char) : List Char → List (List Char)
  | [] => [[]]
  | x :: xs =>
    let rest := splitOnChar c xs
    if x = c then [] :: rest
    else
      match rest with
      | [] => [[x]]
      | r :: rs => (x :: r) :: rs

/-! ## The end-of-turn marker cleanup

`content.replace(/<\|.*?\|>/g, "")`: every minimal `<|…|>` span with no
newline inside is removed (`.` does not match `\n`). -/

/-- Given the characters after an opening `<|`, find the first `|>`
before any newline; return the suffix after it. -/
def findPipeClose : List Char → Option (List Char)
  | [] => none
  | c :: cs =>
    if c = '\n' then none
    else if c = '|' then
      match cs with
      | '>' :: rest => some rest
      | _ => findPipeClose cs
    else findPipeClose cs

/-- One global-replace pass of `/<\|.*?\|>/g` with fuel. -/
def stripMarkersAux : Nat → List Char → List Char
  | 0, cs => cs
  | _ + 1, [] => []
  | fuel + 1, c :: cs =>
    if c = '<' then
      match cs with
      | '|' :: rest =>
        match findPipeClose rest with
        | some after => stripMarkersAux fuel after
        | none => c :: stripMarkersAux fuel cs
      | _ => c :: stripMarkersAux fuel cs
    else c :: stripMarkersAux fuel cs

/-- Models `raw.replace(/<\|.*?\|>/g, "")` (line 1421 of `toolsProvider.ts`). -/
def stripMarkers (s : String) : String :=
  String.mk (stripMarkersAux (s.data.length + 1) s.data)

/-- The cleanup applied to every model response:
`content.replace(/<\|.*?\|>/g, "").trim()`. -/
def cleanContent (raw : String) : String :=
  jsTrim (stripMarkers raw)

/-! ## JavaScript values and `JSON.parse`

`JsValue` models the values produced by `JSON.parse`; numbers are kept as
mantissa/exponent pairs (only zero-ness matters to the engine, via
truthiness).  Object field lookup models JavaScript property access
(`none` = `undefined`); duplicate keys in a JSON text follow the
JavaScript rule (first position, last value). -/

inductive JsValue where
  | null
  | bool (b : Bool)
  | num (m : Int) (e : Int)
  | str (s : String)
  | arr (elems : List JsValue)
  | obj (fields : List (String × JsValue))
deriving Inhabited

/-- Field lookup in an object field list (first occurrence). -/
def lookupField : List (String × JsValue) → String → Option JsValue
  | [], _ => none
  | (k, v) :: rest, key => if k = key then some v else lookupField rest key

/-- JavaScript property access `v.key` (`none` models `undefined`). -/
def getField : JsValue → String → Option JsValue
  | .obj fields, key => lookupField fields key
  | _, _ => none

/-- Assignment `obj.key = v`: replace in place if present, else append. -/
def setField : List (String × JsValue) → String → JsValue → List (String × JsValue)
  | [], key, v => [(key, v)]
  | (k, v0) :: rest, key, v =>
    if k = key then (k, v) :: rest else (k, v0) :: setField rest key v

/-- Assignment on a value (no-op on non-objects, as the source only
assigns to objects). -/
def setMember : JsValue → String → JsValue → JsValue
  | .obj fields, key, v => .obj (setField fields key v)
  | other, _, _ => other

/-- JavaScript truthiness of a value. -/
def truthy : JsValue → Bool
  | .null => false
  | .bool b => b
  | .num m _ => !(m == 0)
  | .str s => !(s == "")
  | .arr _ => true
  | .obj _ => true

/-- Truthiness of a possibly-`undefined` value. -/
def truthyOpt : Option JsValue → Bool
  | none => false
  | some v => truthy v

/-- JavaScript `a || b` on possibly-`undefined` values: the first operand
if truthy, otherwise the second. -/
def jsOr (a b : Option JsValue) : Option JsValue :=
  if truthyOpt a then a else b

/-- Strict equality `v === "s"` for a string literal `s`. -/
def isStrEq (v : JsValue) (s : String) : Bool :=
  match v with
  | .str t => t == s
  | _ => false

/-- The condition `x && typeof x === "string"`: a non-empty string. -/
def truthyStr : Option JsValue → Option String
  | some (.str s) => if s = "" then none else some s
  | _ => none

/-- Hex digit value (code points 0-9, a-f, A-F). -/
def hexVal (c : Char) : Option Nat :=
  let n := c.toNat
  if 48 ≤ n && n ≤ 57 then some (n - 48)
  else if 97 ≤ n && n ≤ 102 then some (n - 87)
  else if 65 ≤ n && n ≤ 70 then some (n - 55)
  else none

/-- Value of a simple escape character in a JSON string. -/
def escChar (c : Char) : Option Char :=
  if c = '"' then some '"'
  else if c = '\\' then some '\\'
  else if c = '/' then some '/'
  else if c = 'b' then some (Char.ofNat 8)
  else if c = 'f' then some (Char.ofNat 12)
  else if c = 'n' then some '\n'
  else if c = 'r' then some '\r'
  else if c = 't' then some '\t'
  else none

/-- Parse the body of a JSON string after the opening quote; returns the
content and the suffix after the closing quote. -/
def parseStrBody : List Char → Option (List Char × List Char)
  | [] => none
  | c :: rest =>
    if c = '"' then some ([], rest)
    else if c = '\\' then
      match rest with
      | [] => none
      | e :: r2 =>
        if e = 'u' then
          match r2 with
          | a :: b :: c2 :: d :: r3 =>
            match hexVal a, hexVal b, hexVal c2, hexVal d with
            | some ha, some hb, some hc, some hd =>
              let n := ((ha * 16 + hb) * 16 + hc) * 16 + hd
              if n < 55296 || 57343 < n then
                match parseStrBody r3 with
                | some (chars, rest2) => some (Char.ofNat n :: chars, rest2)
                | none => none
              else none
            | _, _, _, _ => none
          | _ => none
        else
          match escChar e with
          | some ch =>
            match parseStrBody r2 with
            | some (chars, rest2) => some (ch :: chars, rest2)
            | none => none
          | none => none
    else if c.toNat < 32 then none
    else
      match parseStrBody rest with
      | some (chars, rest2) => some (c :: chars, rest2)
      | none => none

/-- Digit run to a natural number. -/
def digitsToNat (ds : List Char) : Nat :=
  ds.foldl (fun acc c => 10 * acc + (c.toNat - 48)) 0

/-- Parse a JSON number as (mantissa, decimal exponent) and the rest.
Well-formedness of what follows is enforced by the surrounding context
check, exactly as `JSON.parse` rejects such texts. -/
def parseNumber (cs : List Char) : Option ((Int × Int) × List Char) :=
  let neg := listStartsWith ['-'] cs
  let cs1 := if neg then cs.drop 1 else cs
  let intDigits := cs1.takeWhile Char.isDigit
  let r1 := cs1.dropWhile Char.isDigit
  if intDigits.isEmpty then none
  else
    let (fracDigits, r2) :=
      match r1 with
      | '.' :: r =>
        let fd := r.takeWhile Char.isDigit
        if fd.isEmpty then (([] : List Char), r1) else (fd, r.dropWhile Char.isDigit)
      | _ => ([], r1)
    let (expVal, r3) :=
      match r2 with
      | e :: r =>
        if e = 'e' || e = 'E' then
          let (esign, re) :=
            match r with
            | '+' :: rr => ((1 : Int), rr)
            | '-' :: rr => ((-1 : Int), rr)
            | _ => ((1 : Int), r)
          let ed := re.takeWhile Char.isDigit
          if ed.isEmpty then ((0 : Int), r2)
          else (esign * (digitsToNat ed : Int), re.dropWhile Char.isDigit)
        else ((0 : Int), r2)
      | _ => ((0 : Int), r2)
    let mNat : Nat := digitsToNat (intDigits ++ fracDigits)
    let m : Int := if neg then -(mNat : Int) else (mNat : Int)
    some ((m, expVal - (fracDigits.length : Int)), r3)

mutual

/-- Parse one JSON value (fuel-indexed recursive descent). -/
def parseVal : Nat → List Char → Option (JsValue × List Char)
  | 0, _ => none
  | fuel + 1, cs =>
    let cs := cs.dropWhile jsonWs
    match cs with
    | [] => none
    | c :: rest =>
      if c = 'n' then
        if listStartsWith ['u', 'l', 'l'] rest then some (.null, rest.drop 3) else none
      else if c = 't' then
        if listStartsWith ['r', 'u', 'e'] rest then some (.bool true, rest.drop 3) else none
      else if c = 'f' then
        if listStartsWith ['a', 'l', 's', 'e'] rest then some (.bool false, rest.drop 4) else none
      else if c = '"' then
        match parseStrBody rest with
        | some (chars, r2) => some (.str (String.mk chars), r2)
        | none => none
      else if c = '{' then
        let r := rest.dropWhile jsonWs
        match r with
        | '}' :: r2 => some (.obj [], r2)
        | _ => parseMembers fuel r []
      else if c = '[' then
        let r := rest.dropWhile jsonWs
        match r with
        | ']' :: r2 => some (.arr [], r2)
        | _ => parseElems fuel r []
      else if c = '-' || c.isDigit then
        match parseNumber cs with
        | some ((m, e), r2) => some (.num m e, r2)
        | none => none
      else none

/-- Parse the members of an object after `{` (at least one member). -/
def parseMembers : Nat → List Char → List (String × JsValue) →
    Option (JsValue × List Char)
  | 0, _, _ => none
  | fuel + 1, cs, acc =>
    let cs := cs.dropWhile jsonWs
    match cs with
    | '"' :: r =>
      match parseStrBody r with
      | some (keyChars, r2) =>
        let r3 := r2.dropWhile jsonWs
        match r3 with
        | ':' :: r4 =>
          match parseVal fuel r4 with
          | some (v, r5) =>
            let acc2 := setField acc (String.mk keyChars) v
            let r6 := r5.dropWhile jsonWs
            match r6 with
            | ',' :: r7 => parseMembers fuel r7 acc2
            | '}' :: r7 => some (.obj acc2, r7)
            | _ => none
          | none => none
        | _ => none
      | none => none
    | _ => none

/-- Parse the elements of an array after `[` (at least one element). -/
def parseElems : Nat → List Char → List JsValue → Option (JsValue × List Char)
  | 0, _, _ => none
  | fuel + 1, cs, acc =>
    match parseVal fuel cs with
    | some (v, r) =>
      let r2 := r.dropWhile jsonWs
      match r2 with
      | ',' :: r3 => parseElems fuel r3 (acc ++ [v])
      | ']' :: r3 => some (.arr (acc ++ [v]), r3)
      | _ => none
    | none => none

end

/-- Models `JSON.parse(s)` as a partial function: `none` models a thrown
`SyntaxError`. -/
def parseJson (s : String) : Option JsValue :=
  match parseVal (s.data.length + 1) s.data with
  | some (v, rest) => if (rest.dropWhile jsonWs).isEmpty then some v else none
  | none => none

/-! ## Node path handling (POSIX, absolute base directories)

The plugin runs with an absolute working directory.  `normAbs` models
`path.normalize` on an absolute path, `joinAbs` models
`path.join(base, rel)` and `resolvePath` models `path.resolve(base, rel)`
for an absolute `base`. -/

/-- Process already-split path segments against a stack (absolute path:
`..` at the root is dropped). -/
def normSegs : List (List Char) → List (List Char) → List (List Char)
  | [], acc => acc.reverse
  | seg :: rest, acc =>
    if seg = [] || seg = ['.'] then normSegs rest acc
    else if seg = ['.', '.'] then normSegs rest acc.tail
    else normSegs rest (seg :: acc)

/-- Normalize an absolute POSIX path (resolve `.` and `..`, collapse `//`). -/
def normAbs (p : String) : String :=
  let segs := normSegs (splitOnChar '/' p.data) []
  String.mk ('/' :: (segs.intersperse ['/']).flatten)

/-- Models `path.join(base, rel)` for an absolute `base`. -/
def joinAbs (base rel : String) : String :=
  normAbs (base ++ "/" ++ rel)

/-- Models `path.resolve(base, req)` for an absolute `base`. -/
def resolvePath (base req : String) : String :=
  if strStarts req "/" then normAbs req else normAbs (base ++ "/" ++ req)

/-- The security helper `validatePath(baseDir, requestedPath)` (lines
12–22 of `toolsProvider.ts`): resolve, lower-case both sides, and require
the resolved path to start with the resolved base; a failure models the
thrown `Access Denied` error. -/
def validatePath (baseDir requestedPath : String) : Except String String :=
  let resolved := resolvePath baseDir requestedPath
  let lowerResolved := lowerStr resolved
  let lowerBase := lowerStr (normAbs baseDir)
  if strStarts lowerResolved lowerBase then .ok resolved
  else .error ("Access Denied: Path " ++ apos ++ requestedPath ++ apos ++
    " is outside the workspace.")

/-! ## The response grammar parser (lines 1442–1488)

`trimmed.match(/\{[\s\S]*\}/)` returns the leftmost-greedy match: the span
from the first `{` to the last `}` of the text (if the former precedes the
latter).  The parsed span is then normalized through the three accepted
tool-call shapes; the `to=` token for the third shape is searched in the
whole text with `/to=([a-zA-Z0-9_.]+)/`. -/

/-- The match of `/\{[\s\S]*\}/` on `s`: from the first `{` to the last
`}`, when the first `{` precedes the last `}`. -/
def extractSpan (s : String) : Option String :=
  match firstIdxOf '{' s.data, lastIdxOf '}' s.data with
  | some i, some j => if i < j then some (strSub s i (j + 1)) else none
  | _, _ => none

/-- Character class `[a-zA-Z0-9_.]` of the `to=` pattern. -/
def isToolChar (c : Char) : Bool :=
  c.isAlphanum || c = '_' || c = '.'

/-- First match of `/to=([a-zA-Z0-9_.]+)/`: the capture group.  After a
`to=` with no class character the regex engine retries from the next
position; since no match can start at the `o` or `=`, continuing after
the `=` is equivalent (and keeps the recursion structural). -/
def toMatchAux (cs : List Char) : Option String :=
  match cs with
  | [] => none
  | 't' :: 'o' :: '=' :: rest =>
    let run := rest.takeWhile isToolChar
    if run.isEmpty then toMatchAux rest else some (String.mk run)
  | _ :: cs2 => toMatchAux cs2

/-- Models `trimmed.match(/to=([a-zA-Z0-9_.]+)/)`, capture group 1. -/
def toMatch (s : String) : Option String :=
  toMatchAux s.data

/-- Models the prefix strip `toolName.replace("functions.", "")` applied when
`toolName.startsWith("functions.")`. -/
def stripFunctionsDot (name : String) : String :=
  if strStarts name "functions." then String.mk (name.data.drop 10) else name

/-- The `save_file` argument alias mapping applied in shapes 2 and 3:
`if (args.path && !args.file_name) args.file_name = args.path;`
`if (args.data && !args.content) args.content = args.data;`. -/
def saveAliasFix (args : JsValue) : JsValue :=
  let a1 :=
    match getField args "path" with
    | some pv =>
      if truthy pv && !truthyOpt (getField args "file_name") then
        setMember args "file_name" pv
      else args
    | none => args
  match getField a1 "data" with
  | some dv =>
    if truthy dv && !truthyOpt (getField a1 "content") then
      setMember a1 "content" dv
    else a1
  | none => a1

/-- Normalization of a parsed JSON span plus the `to=` token of the text
into a tool-call object, following the three shapes of lines 1446–1484. -/
def parseToolCallCore (span : Option String) (toTok : Option String) : Option JsValue :=
  match span with
  | none => none
  | some sp =>
    match parseJson sp with
    | none => none
    | some parsed =>
      if truthyOpt (getField parsed "tool") && truthyOpt (getField parsed "args") then
        some parsed
      else if truthyOpt (getField parsed "name") &&
          truthyOpt (getField parsed "arguments") then
        let toolName := (getField parsed "name").getD .null
        let args0 := (getField parsed "arguments").getD .null
        let args := if isStrEq toolName "save_file" then saveAliasFix args0 else args0
        some (.obj [("tool", toolName), ("args", args)])
      else
        match toTok with
        | none => none
        | some tn0 =>
          let tn := stripFunctionsDot tn0
          let args1 :=
            if tn = "save_file" then
              match parsed with
              | .arr xs => JsValue.obj [("files", .arr xs)]
              | other => other
            else parsed
          let args2 := if tn = "save_file" then saveAliasFix args1 else args1
          some (.obj [("tool", .str tn), ("args", args2)])

/-- The full response grammar parser on the trimmed assistant text. -/
def parseToolCall (trimmed : String) : Option JsValue :=
  parseToolCallCore (extractSpan trimmed) (toMatch trimmed)

/-- The dispatch guard of line 1491: `if (toolCall && toolCall.tool)`. -/
def hasDispatchableCall (tc : Option JsValue) : Bool :=
  match tc with
  | none => false
  | some v => truthyOpt (getField v "tool")

/-! ## The refusal detector (lines 1429–1440) -/

/-- The fixed refusal keyword list of the source. -/
def refusalKeywords : List String :=
  ["i cannot browse", "i don" ++ apos ++ "t have access",
   "i can" ++ apos ++ "t access", "unable to browse", "real-time news",
   "no internet access", "as an ai", "i do not have the ability",
   "cannot access the internet"]

/-- Models `refusalKeywords.some(kw => trimmed.toLowerCase().includes(kw))`. -/
def isRefusal (trimmed : String) : Bool :=
  refusalKeywords.any fun kw => strIncludes (lowerStr trimmed) kw

/-! ## The `save_file` dispatcher argument resolution (lines 1527–1528)

`const fileName = toolCall.args?.file_name || toolCall.args?.name || toolCall.args?.path;`
`const content = toolCall.args?.content || toolCall.args?.data;` -/

/-- The dispatcher alias chain for the file name. -/
def saveFileResolvedName (args : JsValue) : Option JsValue :=
  jsOr (jsOr (getField args "file_name") (getField args "name")) (getField args "path")

/-- The dispatcher alias chain for the content. -/
def saveFileResolvedContent (args : JsValue) : Option JsValue :=
  jsOr (getField args "content") (getField args "data")

/-! ## The code artifact extractor (lines 1613–1723)

Fenced blocks are found with `/```\s*(\w+)?\s*([\s\S]*?)```/g` on the
final text; the match list is then walked in reverse, replacing handled
spans in place. -/

/-- One match of the code-block regex: `idx`/`len` give the span of the
full match in the text, `lang` is capture group 1, `body` capture group 2. -/
structure FenceMatch where
  idx : Nat
  len : Nat
  lang : Option String
  body : String
deriving Repr, DecidableEq

/-- Word character of `\w`. -/
def isWordChar (c : Char) : Bool :=
  c.isAlphanum || c = '_'

/-- Find the next literal ` ``` ` in `cs`; returns its absolute index
(`p` is the absolute position of the head of `cs`) and the suffix after it. -/
def findTicks : List Char → Nat → Option (Nat × List Char)
  | '`' :: '`' :: '`' :: rest, p => some (p, rest)
  | _ :: cs, p => findTicks cs (p + 1)
  | [], _ => none

/-- All matches of the fence regex, scanning left to right (fuel-indexed;
the fuel strictly exceeds the remaining length).  When an opening fence
has no closing fence the engine retries from the next position, exactly
like the backtracking regex. -/
def scanFences : Nat → List Char → Nat → List FenceMatch
  | 0, _, _ => []
  | fuel + 1, cs, p =>
    match findTicks cs p with
    | none => []
    | some (i, rest) =>
      let ws1 := rest.takeWhile jsWs
      let r1 := rest.dropWhile jsWs
      let langRun := r1.takeWhile isWordChar
      let r2 := r1.dropWhile isWordChar
      let ws2 := r2.takeWhile jsWs
      let r3 := r2.dropWhile jsWs
      let p0 := i + 3 + ws1.length + langRun.length + ws2.length
      match findTicks r3 p0 with
      | some (j, after) =>
        { idx := i, len := j + 3 - i,
          lang := if langRun.isEmpty then none else some (String.mk langRun),
          body := String.mk (r3.take (j - p0)) } :: scanFences fuel after (j + 3)
      | none => scanFences fuel ('`' :: '`' :: rest) (i + 1)

/-- Models `Array.from(finalContent.matchAll(codeBlockRegex))`. -/
def allFences (s : String) : List FenceMatch :=
  scanFences (s.data.length + 1) s.data 0

/-! ### File-name inference

Step one: the 500-character lookback is scanned with
`/(?:`+"`"+`|\*\*|###|filename:|file:)[\s\S]*?([\w\-\/\\.]+\.(?:tsx|ts|…|txt))/i`.
Step two: the first line of the body is matched against
`/^(?:\/\/|#|<!--|;)\s*(?:filename:|file:)?\s*([\w\-\/\\.]+\.(?:…))/i`. -/

/-- The path character class `[\w\-\/\\.]`. -/
def isPathChar (c : Char) : Bool :=
  c.isAlphanum || c = '_' || c = '-' || c = '/' || c = '\\' || c = '.'

/-- The known-extension alternation, in pattern order. -/
def knownExts : List String :=
  ["tsx", "ts", "jsx", "js", "html", "css", "json", "md", "py", "sh",
   "java", "rs", "go", "sql", "yaml", "yml", "c", "cpp", "h", "hpp", "txt"]

/-- Case-insensitive literal prefix match, returning the rest. -/
def matchLitCI (pat : String) (cs : List Char) : Option (List Char) :=
  let rec go : List Char → List Char → Option (List Char)
    | [], rest => some rest
    | _ :: _, [] => none
    | p :: ps, c :: rest => if p.toLower = c.toLower then go ps rest else none
  go pat.data cs

/-- Try each extension (in alternation order) as a case-insensitive
prefix of `cs`; return the matched characters (as they appear in `cs`). -/
def extAt (cs : List Char) : Option (List Char) :=
  let rec go : List String → Option (List Char)
    | [] => none
    | e :: es => if (matchLitCI e cs).isSome then some (cs.take e.length) else go es
  go knownExts

/-- Backtracking of `[\w\-\/\\.]+\.(?:EXTS)` at a fixed start: the `+`
takes `k` characters (descending), then a literal `.` and an extension
must follow.  Returns the capture. -/
def capDescend (cs : List Char) : Nat → Option String
  | 0 => none
  | k + 1 =>
    if cs.get? (k + 1) = some '.' then
      match extAt (cs.drop (k + 2)) with
      | some ext => some (String.mk (cs.take (k + 2) ++ ext))
      | none => capDescend cs k
    else capDescend cs k

/-- Match of the path-capture group at exactly this position. -/
def capMatchAt (cs : List Char) : Option String :=
  let run := cs.takeWhile isPathChar
  match run.length with
  | 0 => none
  | n + 1 => capDescend cs n

/-- The lazy `[\s\S]*?` scan: the first position at or after here where
the capture group matches. -/
def lazyCapScan : List Char → Option String
  | [] => none
  | c :: rest =>
    match capMatchAt (c :: rest) with
    | some cap => some cap
    | none => lazyCapScan rest

/-- The alternation of lookback prefixes, in pattern order. -/
def lookbackAlts : List String :=
  ["`", "**", "###", "filename:", "file:"]

/-- Try every alternative at this position (regex alternation with
backtracking into the lazy scan). -/
def lookbackAltsAt (cs : List Char) : Option String :=
  let rec go : List String → Option String
    | [] => none
    | a :: as2 =>
      match matchLitCI a cs with
      | some rest =>
        match lazyCapScan rest with
        | some cap => some cap
        | none => go as2
      | none => go as2
  go lookbackAlts

/-- First match (leftmost start) of the lookback file-name regex;
returns capture group 1. -/
def lookbackName (lb : String) : Option String :=
  let rec go : List Char → Option String
    | [] => none
    | c :: rest =>
      match lookbackAltsAt (c :: rest) with
      | some cap => some cap
      | none => go rest
  go lb.data

/-- The anchored first-line comment regex: returns capture group 1. -/
def firstLineName (code : String) : Option String :=
  let firstLine := jsTrim (String.mk ((splitOnChar '\n' code.data).headD []))
  let cs := firstLine.data
  let afterLabel (r : List Char) : Option String :=
    let withLabel (lbl : String) : Option String :=
      match matchLitCI lbl r with
      | some r2 => capMatchAt (r2.dropWhile jsWs)
      | none => none
    match withLabel "filename:" with
    | some cap => some cap
    | none =>
      match withLabel "file:" with
      | some cap => some cap
      | none => capMatchAt (r.dropWhile jsWs)
  let tryAlt (a : String) : Option String :=
    match matchLitCI a cs with
    | some rest => afterLabel (rest.dropWhile jsWs)
    | none => none
  match tryAlt "//" with
  | some cap => some cap
  | none =>
    match tryAlt "#" with
    | some cap => some cap
    | none =>
      match tryAlt "<!--" with
      | some cap => some cap
      | none => tryAlt ";"

/-- The two-step file-name inference of lines 1667–1683: the lookback
scan first, then the first-line comment fallback. -/
def inferFileName (lookback code : String) : Option String :=
  match lookbackName lookback with
  | some n => some n
  | none => firstLineName code

/-- The shell/console language tags of line 1687. -/
def shellLangs : List String :=
  ["bash", "sh", "cmd", "powershell", "console", "zsh", "terminal"]

/-- Models `(match[1] || "txt").toLowerCase()`. -/
def langOf (m : FenceMatch) : String :=
  lowerStr (m.lang.getD "txt")

/-! ### The reverse walk -/

/-- Membership of a string in a list (`Set.has` / `Array.includes`). -/
def hasName : List String → String → Bool
  | [], _ => false
  | x :: xs, f => x = f || hasName xs f

/-- State threaded through the reverse walk over code blocks: the evolving
final text, the `filesModified` accumulator, the `processedFiles` set
(modelled as a list with `contains`), and the write requests issued so far
(absolute path, content).  `mkdir`/`writeFile` are modelled as the issued
write request. -/
structure ExtCore where
  text : String
  files : List String
  processed : List String
  writes : List (String × String)
deriving Repr, DecidableEq

/-- Outcome of the single-file arm for one block. -/
inductive SingleOutcome where
  | notReached
  | tooSmall
  | shellSkip
  | noName
  | dupSkip (name : String)
  | written (name : String) (body : String)
deriving Repr, DecidableEq

/-- Per-block trace entry, in processing (reverse text) order.
`resolved` is the inferred file name of the single-file arm, recorded
before the dedup check. -/
structure BlockTrace where
  idx : Nat
  lang : String
  batchNames : List String
  handledAsBatch : Bool
  resolved : Option String
  singleOutcome : SingleOutcome
deriving Repr, DecidableEq

/-- All names a trace entry wrote (batch entries plus the single write). -/
def traceWrites (e : BlockTrace) : List String :=
  e.batchNames ++
    (match e.singleOutcome with
     | .written f _ => [f]
     | _ => [])

/-- The JSON-batch loop of lines 1638–1650.  A `validatePath` throw
aborts the remaining items (the `catch` of line 1658); writes and pushes
made before the throw persist.  Returns (writes, pushed names, count,
aborted?). -/
def batchItems (cwd : String) :
    List JsValue → List (String × String) → List String → Nat →
    (List (String × String) × List String × Nat × Bool)
  | [], ws, ns, k => (ws, ns, k, false)
  | item :: rest, ws, ns, k =>
    let fNameV := jsOr (jsOr (getField item "path") (getField item "file_name"))
      (getField item "name")
    let fContV := jsOr (jsOr (getField item "content") (getField item "data"))
      (getField item "code")
    match truthyStr fNameV, truthyStr fContV with
    | some fName, some fCont =>
      match validatePath cwd fName with
      | .ok fpath => batchItems cwd rest (ws ++ [(fpath, fCont)]) (ns ++ [fName]) (k + 1)
      | .error _ => (ws, ns, k, true)
    | _, _ => batchItems cwd rest ws ns k

/-- The success marker replacing a handled batch block. -/
def batchMarker (k : Nat) : String :=
  "\n[System: Successfully extracted and saved " ++ toString k ++
    " files from JSON block.]\n"

/-- The success marker replacing a written single-file block. -/
def singleMarker (f : String) : String :=
  "\n[System: File " ++ apos ++ f ++ apos ++ " created successfully.]\n"

/-- The JSON-batch arm of lines 1632–1661 for one block: the updated
state, the `handledAsBatch` flag and the pushed names.  A parse failure,
a non-array value or a non-`json` tag leaves the state untouched. -/
def batchStep (cwd : String) (st : ExtCore) (m : FenceMatch) :
    ExtCore × Bool × List String :=
  if langOf m = "json" then
    match parseJson m.body with
    | some (.arr items) =>
      let r := batchItems cwd items [] [] 0
      let st1 : ExtCore :=
        { st with files := st.files ++ r.2.1, processed := st.processed ++ r.2.1,
                  writes := st.writes ++ r.1 }
      if !r.2.2.2 && decide (0 < r.2.2.1) then
        ({ st1 with text := strSplice st1.text m.idx m.len (batchMarker r.2.2.1) },
         true, r.2.1)
      else (st1, false, r.2.1)
    | _ => (st, false, [])
  else (st, false, [])

/-- Process one block of the reverse walk (lines 1623–1722): the JSON
batch arm first, then the size gate, file-name inference, the shell and
no-name skips, the dedup check, and the unvalidated `join`-based write. -/
def processBlock (cwd : String) (st : ExtCore) (m : FenceMatch) : ExtCore × BlockTrace :=
  let lang := langOf m
  let b := batchStep cwd st m
  let st1 := b.1
  if b.2.1 then
    (st1, { idx := m.idx, lang := lang, batchNames := b.2.2, handledAsBatch := true,
            resolved := none, singleOutcome := .notReached })
  else if 50 < (jsTrim m.body).data.length then
    let lookback := strSub st1.text (m.idx - 500) m.idx
    match inferFileName lookback m.body with
    | none =>
      if hasName shellLangs lang then
        (st1, { idx := m.idx, lang := lang, batchNames := b.2.2, handledAsBatch := false,
                resolved := none, singleOutcome := .shellSkip })
      else
        (st1, { idx := m.idx, lang := lang, batchNames := b.2.2, handledAsBatch := false,
                resolved := none, singleOutcome := .noName })
    | some f =>
      if hasName st1.processed f then
        (st1, { idx := m.idx, lang := lang, batchNames := b.2.2, handledAsBatch := false,
                resolved := some f, singleOutcome := .dupSkip f })
      else
        let fpath := joinAbs cwd f
        ({ text := strSplice st1.text m.idx m.len (singleMarker f),
           files := st1.files ++ [f], processed := st1.processed ++ [f],
           writes := st1.writes ++ [(fpath, m.body)] },
         { idx := m.idx, lang := lang, batchNames := b.2.2, handledAsBatch := false,
           resolved := some f, singleOutcome := .written f m.body })
  else
    (st1, { idx := m.idx, lang := lang, batchNames := b.2.2, handledAsBatch := false,
            resolved := none, singleOutcome := .tooSmall })

/-- The walk over the (already reversed) match list. -/
def goExtract (cwd : String) : List FenceMatch → ExtCore → ExtCore × List BlockTrace
  | [], st => (st, [])
  | m :: ms, st =>
    let r1 := processBlock cwd st m
    let r2 := goExtract cwd ms r1.1
    (r2.1, r1.2 :: r2.2)

/-- The whole auto-save extraction pass over a final text: scan all
fences, then walk them backwards. -/
def extractRun (cwd finalContent : String) (files0 : List String) :
    ExtCore × List BlockTrace :=
  goExtract cwd (allFences finalContent).reverse
    { text := finalContent, files := files0, processed := [], writes := [] }

/-! ## The agent loop (lines 1393–1742)

The remote chat-completion call and the tool handlers perform external
I/O; they are supplied as oracles in `Env`.  `FetchRes.throws` covers both
a transport exception and a malformed response body (anything the outer
`try` of line 1403 would catch); `FetchRes.notOk` is a non-2xx response.
`Env.exec` is the tool dispatch of lines 1494–1593 after its own `catch`:
it yields the tool-output string and the names it pushed onto
`filesModified`.  Every externally visible action of the loop is recorded
in an effect trace. -/

structure Message where
  role : String
  content : String
deriving Repr, DecidableEq

inductive FetchRes where
  | throws (msg : String)
  | notOk (status : Nat)
  | ok (content : String)
deriving Repr, DecidableEq

structure Env where
  fetch : List Message → FetchRes
  exec : JsValue → String × List String

inductive Effect where
  | modelCall (msgs : List Message)
  | toolDispatch (call : JsValue)
  | fileWrite (path content : String)
  | historyAppend (files : List String)

/-- Is an effect a chat-completion request? -/
def isModelCall : Effect → Bool
  | .modelCall _ => true
  | _ => false

/-- Number of chat-completion requests in a trace. -/
def modelCalls (effs : List Effect) : Nat :=
  (effs.filter isModelCall).length

/-- How the `while` loop of line 1402 was left. -/
inductive LoopExit where
  | errExit (msg : String) (files : List String)
  | earlyExit (resp : String) (files : List String)
  | doneExit (finalContent : String) (files : List String)
deriving Repr, DecidableEq

/-- The corrective system message of line 1437. -/
def refusalNudge : String := "SYSTEM ERROR: You HAVE access to tools. USE THEM."

/-- The keep-alive system message of line 1606. -/
def noCallNudge : String :=
  "SYSTEM NOTICE: You did not call a tool. If you are finished, output " ++
    apos ++ "TASK_COMPLETED" ++ apos ++
    ". If not, please USE A TOOL (e.g., save_file, read_file) to proceed."

/-- One execution of the `while (loops < loopLimit)` loop, by recursion on
the remaining turns (the caller passes `fuel = loopLimit`, and every
continuing branch increments `loops`, so `fuel = loopLimit - loops`
throughout — exactly the loop condition).  Returns the exit and the
effect trace. -/
def loopIter (env : Env) (toolsEnabled : Bool) (loopLimit : Nat) :
    Nat → Nat → List Message → List String → LoopExit × List Effect
  | 0, _, _, files => (.doneExit "" files, [])
  | fuel + 1, loops, msgs, files =>
    match env.fetch msgs with
    | .throws m => (.errExit m files, [.modelCall msgs])
    | .notOk status => (.errExit ("API Error: " ++ toString status) files, [.modelCall msgs])
    | .ok raw =>
      let content := cleanContent raw
      if !toolsEnabled then (.earlyExit content files, [.modelCall msgs])
      else
        let trimmed := jsTrim content
        if isRefusal trimmed then
          let r := loopIter env toolsEnabled loopLimit fuel (loops + 1)
            (msgs ++ [⟨"assistant", content⟩, ⟨"system", refusalNudge⟩]) files
          (r.1, .modelCall msgs :: r.2)
        else
          let tc := parseToolCall trimmed
          if hasDispatchableCall tc then
            let v := tc.getD .null
            let (toolResult, newFiles) := env.exec v
            let r := loopIter env toolsEnabled loopLimit fuel (loops + 1)
              (msgs ++ [⟨"assistant", content⟩, ⟨"user", "Tool Output: " ++ toolResult⟩])
              (files ++ newFiles)
            (r.1, .modelCall msgs :: .toolDispatch v :: r.2)
          else
            if strIncludes content "TASK_COMPLETED" || loopLimit - 1 ≤ loops then
              (.doneExit content files, [.modelCall msgs])
            else
              let r := loopIter env toolsEnabled loopLimit fuel (loops + 1)
                (msgs ++ [⟨"assistant", content⟩, ⟨"system", noCallNudge⟩]) files
              (r.1, .modelCall msgs :: r.2)

/-- The result object of `runAgentLoop`. -/
structure LoopResult where
  response : Option String
  error : Option String
  filesModified : List String

/-- The whole `runAgentLoop` helper: the turn loop, then (only on a
normal loop exit) the auto-save extraction of lines 1614–1723 and the
project-history append of lines 1730–1740.  System-prompt assembly (the
instruction/info file reads of lines 1339–1396) happens before the loop
and is supplied as `initMsgs`; the timestamp of the history line is external
and the append is recorded as an effect carrying the files list. -/
def runAgentLoop (env : Env) (autoSave allowFileSystem allowTools forceTools : Bool)
    (loopLimit : Nat) (cwd : String) (initMsgs : List Message) :
    LoopResult × List Effect :=
  let toolsEnabled := allowTools || forceTools
  let r := loopIter env toolsEnabled loopLimit loopLimit 0 initMsgs []
  match r.1 with
  | .errExit m files =>
    ({ response := none, error := some m, filesModified := files }, r.2)
  | .earlyExit resp files =>
    ({ response := some resp, error := none, filesModified := files }, r.2)
  | .doneExit finalContent files =>
    let (text1, files1, writes) :=
      if autoSave && allowFileSystem && !(finalContent == "") then
        let ex := (extractRun cwd finalContent files).1
        (ex.text, ex.files, ex.writes)
      else (finalContent, files, [])
    let effs2 := r.2 ++ writes.map fun w => Effect.fileWrite w.1 w.2
    let effs3 :=
      if decide (0 < files1.length) && allowFileSystem then
        effs2 ++ [Effect.historyAppend files1]
      else effs2
    ({ response := some text1, error := none, filesModified := files1 }, effs3)

/-! ## Concrete fixtures used by witnesses and counterexamples -/

/-- A user message opening a session. -/
def m0 : Message := ⟨"user", "Task: t"⟩

/-- Working directory fixture. -/
def c1cwd : String := "/work/proj"

/-- A final text whose code block is annotated with a `..`-escaping path. -/
def c1text : String :=
  "### ../../evil.ts\n```js\nconst a = 1; const b = 2; const c = 3; const d = 4; e();\n```\n"

/-- The body of the block in `c1text`. -/
def c1body : String :=
  "const a = 1; const b = 2; const c = 3; const d = 4; e();\n"

/-- Is an `Except` a success? -/
def exceptOk : Except String String → Bool
  | .ok _ => true
  | .error _ => false

/-- Canonical-shape `save_file` call with `path`/`data` aliases. -/
def c3input1 : String :=
  "\x7b\"tool\":\"save_file\",\"args\":\x7b\"path\":\"a.ts\",\"data\":\"x\"\x7d\x7d"

/-- Vendor-shape `save_file` call with canonical argument names. -/
def c3input2 : String :=
  "\x7b\"name\":\"save_file\",\"arguments\":\x7b\"file_name\":\"a.ts\",\"content\":\"x\"\x7d\x7d"

/-- Bare-arguments shape with a `to=functions.save_file` token. -/
def c3input3 : String :=
  "to=functions.save_file \x7b\"path\":\"a.ts\",\"data\":\"x\"\x7d"

/-- The args object of a parsed tool call. -/
def argsOfCall (t : String) : Option JsValue :=
  match parseToolCall t with
  | some v => getField v "args"
  | none => none

/-- A named argument field of a parsed tool call. -/
def callArgField (t k : String) : Option JsValue :=
  match argsOfCall t with
  | some a => getField a k
  | none => none

/-- Assistant text containing both the completion marker and a parseable,
dispatchable tool call. -/
def c4content : String :=
  "TASK_COMPLETED \x7b\"tool\":\"list_directory\",\"args\":\x7b\x7d\x7d"

/-- Environment whose model emits `c4content` on every turn. -/
def envC4 : Env := { fetch := fun _ => .ok c4content, exec := fun _ => ("ok", []) }

/-- Assistant text with the marker, no refusal phrase and no tool call. -/
def c4done : String := "All files are in place. TASK_COMPLETED"

/-- Environment whose model emits `c4done`. -/
def envC4done : Env := { fetch := fun _ => .ok c4done, exec := fun _ => ("", []) }

/-- Assistant text whose brace span is not valid JSON. -/
def c5content : String := "I think \x7b oops \x7d maybe"

/-- Environment whose model emits `c5content`. -/
def envC5 : Env := { fetch := fun _ => .ok c5content, exec := fun _ => ("", []) }

/-- A refusal that nonetheless carries a well-formed tool call. -/
def c6content : String :=
  "I cannot browse the web. \x7b\"tool\":\"duckduckgo_search\",\"args\":\x7b\"query\":\"q\"\x7d\x7d"

/-- Environment whose model emits `c6content`. -/
def envC6 : Env := { fetch := fun _ => .ok c6content, exec := fun _ => ("r", []) }

/-- A final text with two labeled blocks resolving to the same path. -/
def c7text : String :=
  "### a.ts\n```ts\nexport const first = 1; // earlier version padded to size\n```\ntext\n### a.ts\n```ts\nexport const second = 2; // later version padded to size!\n```\n"

/-- The trace of the extraction pass over `c7text`. -/
def c7trace : List BlockTrace := (extractRun "/w" c7text []).2

/-- The first-processed trace entry of `c7trace` (the *last* block in
text order): it wins and is written. -/
def c7e1 : BlockTrace :=
  { idx := 91, lang := "ts", batchNames := [], handledAsBatch := false,
    resolved := some "a.ts",
    singleOutcome := .written "a.ts"
      "export const second = 2; // later version padded to size!\n" }

/-- The second-processed trace entry of `c7trace` (the earlier block in
text order): it resolves to the same path and is dedup-skipped. -/
def c7e2 : BlockTrace :=
  { idx := 9, lang := "ts", batchNames := [], handledAsBatch := false,
    resolved := some "a.ts", singleOutcome := .dupSkip "a.ts" }

/-- A shell-tagged block with no file-name annotation anywhere. -/
def c8text : String :=
  "Run this:\n```bash\nnpm install && npm run build && echo all done here ok\n```\n"

/-- The initial extractor state over `c8text`. -/
def c8st : ExtCore := { text := c8text, files := [], processed := [], writes := [] }

/-- The single fence of `c8text`. -/
def c8m : FenceMatch := (allFences c8text).headD { idx := 0, len := 0, lang := none, body := "" }

/-- Environment whose endpoint answers 500 on every call. -/
def envNotOk : Env := { fetch := fun _ => .notOk 500, exec := fun _ => ("", []) }

/-- Environment whose fetch throws on every call. -/
def envThrows : Env := { fetch := fun _ => .throws "fetch failed", exec := fun _ => ("", []) }

/-- Environment whose model answers plain prose (with marker tokens to strip). -/
def envPlain : Env :=
  { fetch := fun _ => .ok "  hello <|eot|>there  ", exec := fun _ => ("", []) }

/-! ## Helper lemmas -/

theorem modelCalls_nil : modelCalls [] = 0 := rfl

theorem modelCalls_call (msgs : List Message) (l : List Effect) :
    modelCalls (.modelCall msgs :: l) = modelCalls l + 1 := by
  simp [modelCalls, isModelCall, List.filter]

theorem modelCalls_dispatch (v : JsValue) (l : List Effect) :
    modelCalls (.toolDispatch v :: l) = modelCalls l := by
  simp [modelCalls, isModelCall, List.filter]

theorem modelCalls_append (l1 l2 : List Effect) :
    modelCalls (l1 ++ l2) = modelCalls l1 + modelCalls l2 := by
  simp [modelCalls, List.filter_append]

theorem modelCalls_writes (ws : List (String × String)) :
    modelCalls (ws.map fun w => Effect.fileWrite w.1 w.2) = 0 := by
  induction ws with
  | nil => rfl
  | cons w ws ih => simpa [modelCalls, isModelCall, List.filter] using ih

theorem modelCalls_history (fs : List String) :
    modelCalls [Effect.historyAppend fs] = 0 := rfl

/-- The loop makes at most `fuel` chat-completion requests. -/
theorem loopIter_calls_le (env : Env) (te : Bool) (lim : Nat) :
    ∀ fuel loops msgs files,
      modelCalls (loopIter env te lim fuel loops msgs files).2 ≤ fuel := by
  intro fuel
  induction fuel with
  | zero => intro loops msgs files; simp [loopIter, modelCalls]
  | succ n ih =>
    intro loops msgs files
    rcases h : env.fetch msgs with m | status | raw
    · simp [loopIter, h, modelCalls, isModelCall, List.filter]
    · simp [loopIter, h, modelCalls, isModelCall, List.filter]
    · cases te
      · simp [loopIter, h, modelCalls, isModelCall, List.filter]
      · simp only [loopIter, h, Bool.not_true, Bool.false_eq_true, if_false]
        by_cases href : isRefusal (jsTrim (cleanContent raw)) = true
        · simp only [href, if_true, modelCalls_call]
          exact Nat.succ_le_succ (ih _ _ _)
        · rw [Bool.not_eq_true] at href
          simp only [href, Bool.false_eq_true, if_false]
          by_cases hcall :
              hasDispatchableCall (parseToolCall (jsTrim (cleanContent raw))) = true
          · simp only [hcall, if_true, modelCalls_call, modelCalls_dispatch]
            exact Nat.succ_le_succ (ih _ _ _)
          · rw [Bool.not_eq_true] at hcall
            simp only [hcall, Bool.false_eq_true, if_false]
            by_cases hmk : (strIncludes (cleanContent raw) "TASK_COMPLETED" ||
                decide (lim - 1 ≤ loops)) = true
            · simp only [hmk, if_true]
              simp [modelCalls, isModelCall, List.filter]
            · rw [Bool.not_eq_true] at hmk
              simp only [hmk, Bool.false_eq_true, if_false, modelCalls_call]
              exact Nat.succ_le_succ (ih _ _ _)

/-! ## Claims -/

/-- C1 (code bug).  The claim states that every engine write on
behalf of model output — including both arms of the post-loop Code
Artifact Extractor — validates the resolved path against the working
directory before writing, and that a `..`-escaping path is never written.
The single-file arm of the extractor (line 1706) joins the inferred name
into the working directory *without* `validatePath`: on `c1text` the
block annotated `### ../../evil.ts` is written to `/evil.ts`, which is
outside the working directory `/work/proj`; `validatePath` itself, had it
been consulted as in the three sibling arms, rejects the path. -/
theorem c1_extractor_unvalidated_escape :
    (extractRun c1cwd c1text []).1.writes = [("/evil.ts", c1body)] ∧
    strStarts "/evil.ts" c1cwd = false ∧
    exceptOk (validatePath c1cwd "../../evil.ts") = false ∧
    (extractRun c1cwd c1text []).1.files = ["../../evil.ts"] :=
  ⟨rfl, rfl, rfl, rfl⟩

/-- C3 (counterexample).  For the canonical shape
`{"tool":"save_file","args":{"path":"a.ts","data":"x"}}` the parser
passes the args object through unchanged: the produced call has *no*
`file_name` argument (the `path` alias is still there), so the claim that
all three inputs are normalized by the parser into args containing
`file_name` and `content` fails on this input. -/
theorem c3_shape1_not_normalized :
    callArgField c3input1 "file_name" = none ∧
    callArgField c3input1 "content" = none ∧
    callArgField c3input1 "path" = some (.str "a.ts") ∧
    callArgField c3input1 "data" = some (.str "x") ∧
    (parseToolCall c3input1).isSome = true :=
  ⟨rfl, rfl, rfl, rfl, rfl⟩

/-- C3 (amended).  The parser normalizes shapes 2 and 3 into args
containing `file_name = "a.ts"` and `content = "x"`; shape 1 is passed
through with its `path`/`data` aliases intact, and the `save_file`
dispatcher alias chains (`file_name || name || path`,
`content || data`) resolve all three parsed calls to file name `a.ts`
and content `x`. -/
theorem c3_three_shapes_resolve :
    callArgField c3input2 "file_name" = some (.str "a.ts") ∧
    callArgField c3input2 "content" = some (.str "x") ∧
    callArgField c3input3 "file_name" = some (.str "a.ts") ∧
    callArgField c3input3 "content" = some (.str "x") ∧
    (argsOfCall c3input1).map saveFileResolvedName = some (some (.str "a.ts")) ∧
    (argsOfCall c3input1).map saveFileResolvedContent = some (some (.str "x")) ∧
    (argsOfCall c3input2).map saveFileResolvedName = some (some (.str "a.ts")) ∧
    (argsOfCall c3input2).map saveFileResolvedContent = some (some (.str "x")) ∧
    (argsOfCall c3input3).map saveFileResolvedName = some (some (.str "a.ts")) ∧
    (argsOfCall c3input3).map saveFileResolvedContent = some (some (.str "x")) ∧
    (parseToolCall c3input1).map (fun v => getField v "tool") =
      some (some (.str "save_file")) :=
  ⟨rfl, rfl, rfl, rfl, rfl, rfl, rfl, rfl, rfl, rfl, rfl⟩

/-- C4 (counterexample).  The completion marker is only honoured in
the no-tool-call branch: on `c4content`, which contains both
`TASK_COMPLETED` and a dispatchable tool call, the loop dispatches the
call and keeps going — with `turnLimit = 2` it performs two model calls
and ends with the empty final text, not with `c4content` on the first
turn. -/
theorem c4_marker_with_call_not_final :
    strIncludes c4content "TASK_COMPLETED" = true ∧
    modelCalls (runAgentLoop envC4 false false true false 2 "/w" [m0]).2 = 2 ∧
    (runAgentLoop envC4 false false true false 2 "/w" [m0]).1.response = some "" :=
  ⟨rfl, rfl, rfl⟩

/-- C4 (amended).  An assistant text containing `TASK_COMPLETED`
ends the loop successfully on that turn with the text as the final text,
provided the turn is neither classified as a refusal nor carries a
dispatchable tool call. -/
theorem c4_marker_ends_turn (env : Env) (lim fuel loops : Nat) (msgs : List Message)
    (files : List String) (raw : String)
    (hf : env.fetch msgs = .ok raw)
    (href : isRefusal (jsTrim (cleanContent raw)) = false)
    (hcall : hasDispatchableCall (parseToolCall (jsTrim (cleanContent raw))) = false)
    (hmk : strIncludes (cleanContent raw) "TASK_COMPLETED" = true) :
    loopIter env true lim (fuel + 1) loops msgs files =
      (.doneExit (cleanContent raw) files, [.modelCall msgs]) := by
  simp [loopIter, hf, href, hcall, hmk]

/-- Witness for `c4_marker_ends_turn` at `envC4done`. -/
theorem c4_marker_ends_turn_witness :
    loopIter envC4done true 8 8 0 [m0] [] =
      (.doneExit (cleanContent c4done) [], [.modelCall [m0]]) :=
  c4_marker_ends_turn envC4done 8 7 0 [m0] [] c4done rfl rfl rfl rfl

/-- C2.  (i) A whole `runAgentLoop` invocation performs at most
`loopLimit` chat-completion requests — in particular the `while` loop of
line 1402 runs at most `loopLimit` iterations and always returns a result
object (the embedding is a total function).  (ii) On the last allowed
turn (`loops ≥ loopLimit − 1`) a response with no refusal and no
dispatchable tool call ends the loop with that response as the final
text, marker or no marker. -/
theorem c2_loop_bounded_and_forced_final :
    (∀ (env : Env) (as afs al ft : Bool) (lim : Nat) (cwd : String)
        (msgs : List Message),
      modelCalls (runAgentLoop env as afs al ft lim cwd msgs).2 ≤ lim) ∧
    (∀ (env : Env) (lim fuel loops : Nat) (msgs : List Message)
        (files : List String) (raw : String),
      env.fetch msgs = .ok raw →
      isRefusal (jsTrim (cleanContent raw)) = false →
      hasDispatchableCall (parseToolCall (jsTrim (cleanContent raw))) = false →
      lim - 1 ≤ loops →
      loopIter env true lim (fuel + 1) loops msgs files =
        (.doneExit (cleanContent raw) files, [.modelCall msgs])) := by
  constructor
  · intro env as afs al ft lim cwd msgs
    have hle := loopIter_calls_le env (al || ft) lim lim 0 msgs []
    calc modelCalls (runAgentLoop env as afs al ft lim cwd msgs).2
        = modelCalls (loopIter env (al || ft) lim lim 0 msgs []).2 := by
          unfold runAgentLoop
          dsimp only
          split
          · rfl
          · rfl
          · split <;>
              simp [apply_ite modelCalls, modelCalls_append, modelCalls_writes,
                modelCalls_history]
      _ ≤ lim := hle
  · intro env lim fuel loops msgs files raw hf href hcall hlast
    simp [loopIter, hf, href, hcall, hlast]

/-- Witness for `c2_loop_bounded_and_forced_final`: the bound at a
concrete environment, and forced-final acceptance on the last turn of an
8-turn session. -/
theorem c2_loop_bounded_and_forced_final_witness :
    modelCalls (runAgentLoop envPlain true true true false 8 "/w" [m0]).2 ≤ 8 ∧
    loopIter envPlain true 8 1 7 [m0] [] =
      (.doneExit (cleanContent "  hello <|eot|>there  ") [], [.modelCall [m0]]) :=
  ⟨c2_loop_bounded_and_forced_final.1 envPlain true true true false 8 "/w" [m0],
   c2_loop_bounded_and_forced_final.2 envPlain 8 0 7 [m0] [] _ rfl rfl rfl (by omega)⟩

/-- C5.  The parser is a function of the single brace span (the
leftmost-greedy match of `/\{[\s\S]*\}/`, i.e. first `{` to last `}`) and
the `to=` token: (i) no span means no call; (ii) equal spans and tokens
give equal results; (iii) if JSON parsing of the span fails the result is
`null`; and (iv) the loop treats a turn with no dispatchable call, no
refusal and no marker (before the last turn) as "no call": it appends the
assistant text and the nudge system message and continues — not an
error. -/
theorem c5_first_span_and_null_on_parse_failure :
    (∀ t : String, extractSpan t = none → parseToolCall t = none) ∧
    (∀ t1 t2 : String, extractSpan t1 = extractSpan t2 → toMatch t1 = toMatch t2 →
      parseToolCall t1 = parseToolCall t2) ∧
    (∀ (t sp : String), extractSpan t = some sp → parseJson sp = none →
      parseToolCall t = none) ∧
    (∀ (env : Env) (lim fuel loops : Nat) (msgs : List Message)
        (files : List String) (raw : String),
      env.fetch msgs = .ok raw →
      isRefusal (jsTrim (cleanContent raw)) = false →
      parseToolCall (jsTrim (cleanContent raw)) = none →
      strIncludes (cleanContent raw) "TASK_COMPLETED" = false →
      loops < lim - 1 →
      loopIter env true lim (fuel + 1) loops msgs files =
        ((loopIter env true lim fuel (loops + 1)
            (msgs ++ [⟨"assistant", cleanContent raw⟩, ⟨"system", noCallNudge⟩])
            files).1,
         .modelCall msgs ::
           (loopIter env true lim fuel (loops + 1)
             (msgs ++ [⟨"assistant", cleanContent raw⟩, ⟨"system", noCallNudge⟩])
             files).2)) := by
  refine ⟨?_, ?_, ?_, ?_⟩
  · intro t h
    simp [parseToolCall, parseToolCallCore, h]
  · intro t1 t2 hsp htok
    simp [parseToolCall, parseToolCallCore, hsp, htok]
  · intro t sp hsp hj
    simp [parseToolCall, parseToolCallCore, hsp, hj]
  · intro env lim fuel loops msgs files raw hf href hparse hmk hlt
    have hno : hasDispatchableCall (parseToolCall (jsTrim (cleanContent raw))) = false := by
      simp [hasDispatchableCall, hparse]
    have hnotlast : ¬(lim - 1 ≤ loops) := by omega
    simp [loopIter, hf, href, hno, hmk, hnotlast]

/-- Witness for `c5_first_span_and_null_on_parse_failure`: the text
`c5content` has the brace span `{ oops }`, which fails to parse, and the
loop nudges and continues. -/
theorem c5_first_span_witness :
    extractSpan c5content = some "\x7b oops \x7d" ∧
    parseJson "\x7b oops \x7d" = none ∧
    parseToolCall c5content = none ∧
    loopIter envC5 true 8 8 0 [m0] [] =
      ((loopIter envC5 true 8 7 1
          ([m0] ++ [⟨"assistant", cleanContent "I think \x7b oops \x7d maybe"⟩,
            ⟨"system", noCallNudge⟩]) []).1,
       .modelCall [m0] ::
         (loopIter envC5 true 8 7 1
           ([m0] ++ [⟨"assistant", cleanContent "I think \x7b oops \x7d maybe"⟩,
             ⟨"system", noCallNudge⟩]) []).2) :=
  ⟨rfl, rfl,
   c5_first_span_and_null_on_parse_failure.2.2.1 c5content "\x7b oops \x7d" rfl rfl,
   c5_first_span_and_null_on_parse_failure.2.2.2 envC5 8 7 0 [m0] [] _ rfl rfl
     (c5_first_span_and_null_on_parse_failure.2.2.1 _ "\x7b oops \x7d" rfl rfl) rfl
     (by omega)⟩

/-- C6.  When a refusal keyword matches (case-insensitive substring
over the fixed list), the turn is handled as a refusal even though the
same text carries a dispatchable tool call: the assistant text and the
corrective system message are appended and the loop continues; no
dispatch effect is emitted this turn. -/
theorem c6_refusal_overrides_tool_call (env : Env) (lim fuel loops : Nat)
    (msgs : List Message) (files : List String) (raw : String)
    (hf : env.fetch msgs = .ok raw)
    (href : isRefusal (jsTrim (cleanContent raw)) = true)
    (_hcall : hasDispatchableCall (parseToolCall (jsTrim (cleanContent raw))) = true) :
    loopIter env true lim (fuel + 1) loops msgs files =
      ((loopIter env true lim fuel (loops + 1)
          (msgs ++ [⟨"assistant", cleanContent raw⟩, ⟨"system", refusalNudge⟩])
          files).1,
       .modelCall msgs ::
         (loopIter env true lim fuel (loops + 1)
           (msgs ++ [⟨"assistant", cleanContent raw⟩, ⟨"system", refusalNudge⟩])
           files).2) := by
  simp [loopIter, hf, href]

/-- Witness for `c6_refusal_overrides_tool_call` at `c6content`, which
both matches a refusal keyword and parses to a dispatchable call. -/
theorem c6_refusal_overrides_tool_call_witness :
    loopIter envC6 true 8 8 0 [m0] [] =
      ((loopIter envC6 true 8 7 1
          ([m0] ++ [⟨"assistant", cleanContent c6content⟩, ⟨"system", refusalNudge⟩])
          []).1,
       .modelCall [m0] ::
         (loopIter envC6 true 8 7 1
           ([m0] ++ [⟨"assistant", cleanContent c6content⟩, ⟨"system", refusalNudge⟩])
           []).2) :=
  c6_refusal_overrides_tool_call envC6 8 7 0 [m0] [] c6content rfl rfl rfl

/-- C9.  (i) A thrown transport exception on any turn ends the loop
at once with that message and the files accumulated so far; (ii) a
non-2xx status does the same with the `API Error` message; (iii) whenever
the loop exits with an error, `runAgentLoop` returns that error and those
files, performing no extraction and no history append (its effect trace
is exactly the loop trace, which ends at the failing request). -/
theorem c9_transport_error_ends_loop :
    (∀ (env : Env) (te : Bool) (lim fuel loops : Nat) (msgs : List Message)
        (files : List String) (m : String),
      env.fetch msgs = .throws m →
      loopIter env te lim (fuel + 1) loops msgs files =
        (.errExit m files, [.modelCall msgs])) ∧
    (∀ (env : Env) (te : Bool) (lim fuel loops : Nat) (msgs : List Message)
        (files : List String) (status : Nat),
      env.fetch msgs = .notOk status →
      loopIter env te lim (fuel + 1) loops msgs files =
        (.errExit ("API Error: " ++ toString status) files, [.modelCall msgs])) ∧
    (∀ (env : Env) (as afs al ft : Bool) (lim : Nat) (cwd : String)
        (msgs : List Message) (m : String) (files : List String),
      (loopIter env (al || ft) lim lim 0 msgs []).1 = .errExit m files →
      runAgentLoop env as afs al ft lim cwd msgs =
        ({ response := none, error := some m, filesModified := files },
         (loopIter env (al || ft) lim lim 0 msgs []).2)) := by
  refine ⟨?_, ?_, ?_⟩
  · intro env te lim fuel loops msgs files m hf
    simp [loopIter, hf]
  · intro env te lim fuel loops msgs files status hf
    simp [loopIter, hf]
  · intro env as afs al ft lim cwd msgs m files hx
    unfold runAgentLoop
    simp only [hx]

/-- Witness for `c9_transport_error_ends_loop` at the failing
environments. -/
theorem c9_transport_error_ends_loop_witness :
    loopIter envThrows true 8 8 0 [m0] [] =
      (.errExit "fetch failed" [], [.modelCall [m0]]) ∧
    loopIter envNotOk true 8 8 0 [m0] [] =
      (.errExit ("API Error: " ++ toString 500) [], [.modelCall [m0]]) ∧
    runAgentLoop envThrows true true true false 8 "/w" [m0] =
      ({ response := none, error := some "fetch failed", filesModified := [] },
       (loopIter envThrows (true || false) 8 8 0 [m0] []).2) :=
  ⟨c9_transport_error_ends_loop.1 envThrows true 8 7 0 [m0] [] "fetch failed" rfl,
   c9_transport_error_ends_loop.2.1 envNotOk true 8 7 0 [m0] [] 500 rfl,
   c9_transport_error_ends_loop.2.2 envThrows true true true false 8 "/w" [m0]
     "fetch failed" []
     (by rw [c9_transport_error_ends_loop.1 envThrows (true || false) 8 7 0 [m0] []
       "fetch failed" rfl])⟩

/-- C10.  With `allow_tools = false` and `forceTools = false` the
loop returns directly after the first successful model call: the
response is the marker-stripped (and trimmed) text, `filesModified` is
empty, and the whole effect trace is that single chat-completion request —
no dispatch, no file write, no history append, no extraction. -/
theorem c10_tools_disabled_single_call (env : Env) (autoSave allowFS : Bool)
    (lim : Nat) (cwd : String) (msgs : List Message) (raw : String)
    (hf : env.fetch msgs = .ok raw) (hl : 0 < lim) :
    runAgentLoop env autoSave allowFS false false lim cwd msgs =
      ({ response := some (cleanContent raw), error := none, filesModified := [] },
       [.modelCall msgs]) := by
  obtain ⟨l, rfl⟩ : ∃ l, lim = l + 1 := ⟨lim - 1, by omega⟩
  simp [runAgentLoop, loopIter, hf]

/-- Witness for `c10_tools_disabled_single_call` at `envPlain`. -/
theorem c10_tools_disabled_single_call_witness :
    runAgentLoop envPlain true true false false 8 "/w" [m0] =
      ({ response := some (cleanContent "  hello <|eot|>there  "), error := none,
         filesModified := [] },
       [.modelCall [m0]]) :=
  c10_tools_disabled_single_call envPlain true true 8 "/w" [m0] _ rfl (by omega)

/-! ## Extractor lemmas for the dedup claims -/

theorem hasName_append (a b : List String) (f : String) :
    hasName (a ++ b) f = (hasName a f || hasName b f) := by
  induction a with
  | nil => simp [hasName]
  | cons x xs ih => simp [hasName, ih, Bool.or_assoc]

theorem hasName_of_mem {l : List String} {f : String} (h : f ∈ l) :
    hasName l f = true := by
  induction l with
  | nil => cases h
  | cons x xs ih =>
    rcases List.mem_cons.mp h with h1 | h2
    · simp [hasName, h1]
    · simp [hasName, ih h2]

theorem shell_ne_json {l : String} (h : hasName shellLangs l = true) :
    ¬ l = "json" := by
  intro he
  rw [he] at h
  exact absurd h (by decide)

theorem batchStep_not_json (cwd : String) (st : ExtCore) (m : FenceMatch)
    (h : ¬ langOf m = "json") : batchStep cwd st m = (st, false, []) := by
  simp [batchStep, h]

theorem batchStep_processed_mono (cwd : String) (st : ExtCore) (m : FenceMatch)
    (f : String) (h : hasName st.processed f = true) :
    hasName (batchStep cwd st m).1.processed f = true := by
  unfold batchStep
  split
  · split
    · dsimp only
      split <;> simp [hasName_append, h]
    · simpa using h
  · simpa using h

theorem batchStep_names_processed (cwd : String) (st : ExtCore) (m : FenceMatch)
    (f : String) (h : f ∈ (batchStep cwd st m).2.2) :
    hasName (batchStep cwd st m).1.processed f = true := by
  revert h
  unfold batchStep
  split
  · split
    · dsimp only
      split <;>
        · intro h
          simp only at h
          simp [hasName_append, hasName_of_mem h]
    · intro h
      simp at h
  · intro h
    simp at h

theorem processBlock_idx (cwd : String) (st : ExtCore) (m : FenceMatch) :
    (processBlock cwd st m).2.idx = m.idx := by
  unfold processBlock
  dsimp only
  split
  · rfl
  · split
    · split
      · split <;> rfl
      · split <;> rfl
    · rfl

theorem processBlock_processed_mono (cwd : String) (st : ExtCore) (m : FenceMatch)
    (f : String) (h : hasName st.processed f = true) :
    hasName (processBlock cwd st m).1.processed f = true := by
  have hb := batchStep_processed_mono cwd st m f h
  unfold processBlock
  dsimp only
  split
  · exact hb
  · split
    · split
      · split
        · exact hb
        · exact hb
      · split
        · exact hb
        · simp [hasName_append, hb]
    · exact hb

theorem processBlock_writes_processed (cwd : String) (st : ExtCore) (m : FenceMatch)
    (f : String) (h : f ∈ traceWrites (processBlock cwd st m).2) :
    hasName (processBlock cwd st m).1.processed f = true := by
  revert h
  unfold processBlock
  dsimp only
  split
  · intro h
    simp only [traceWrites, List.append_nil] at h
    exact batchStep_names_processed cwd st m f h
  · split
    · split
      · split
        · intro h
          simp only [traceWrites, List.append_nil] at h
          exact batchStep_names_processed cwd st m f h
        · intro h
          simp only [traceWrites, List.append_nil] at h
          exact batchStep_names_processed cwd st m f h
      · split
        · intro h
          simp only [traceWrites, List.append_nil] at h
          exact batchStep_names_processed cwd st m f h
        · intro h
          simp only [traceWrites] at h
          rcases List.mem_append.mp h with h1 | h2
          · have := batchStep_names_processed cwd st m f h1
            simp [hasName_append, this]
          · simp only [List.mem_singleton] at h2
            subst h2
            simp [hasName_append, hasName]
    · intro h
      simp only [traceWrites, List.append_nil] at h
      exact batchStep_names_processed cwd st m f h

theorem processBlock_dup (cwd : String) (st : ExtCore) (m : FenceMatch)
    (f : String) (h : hasName st.processed f = true)
    (hres : (processBlock cwd st m).2.resolved = some f) :
    (processBlock cwd st m).2.singleOutcome = .dupSkip f := by
  have hb := batchStep_processed_mono cwd st m f h
  revert hres
  unfold processBlock
  dsimp only
  split
  · intro hres
    simp at hres
  · split
    · split
      · split
        · intro hres
          simp at hres
        · intro hres
          simp at hres
      · split
        · intro hres
          simp only at hres
          obtain rfl : _ = f := Option.some.inj hres
          rfl
        · intro hres
          simp only at hres
          obtain rfl : _ = f := Option.some.inj hres
          rename_i hguard
          rw [hb] at hguard
          exact absurd rfl hguard
    · intro hres
      simp at hres

theorem goExtract_idx (cwd : String) :
    ∀ (ms : List FenceMatch) (st : ExtCore),
      ((goExtract cwd ms st).2).map BlockTrace.idx = ms.map FenceMatch.idx := by
  intro ms
  induction ms with
  | nil => intro st; simp [goExtract]
  | cons m ms ih =>
    intro st
    simp [goExtract, processBlock_idx, ih]

theorem goExtract_dup (cwd : String) (f : String) :
    ∀ (ms : List FenceMatch) (st : ExtCore), hasName st.processed f = true →
      ∀ e ∈ (goExtract cwd ms st).2, e.resolved = some f →
        e.singleOutcome = .dupSkip f := by
  intro ms
  induction ms with
  | nil => intro st _ e he; simp [goExtract] at he
  | cons m ms ih =>
    intro st h e he hres
    simp only [goExtract, List.mem_cons] at he
    rcases he with he | he
    · subst he
      exact processBlock_dup cwd st m f h hres
    · exact ih (processBlock cwd st m).1 (processBlock_processed_mono cwd st m f h)
        e he hres

theorem goExtract_write_then_dup (cwd : String) (f : String) :
    ∀ (ms : List FenceMatch) (st : ExtCore) (p q : Nat) (e1 e2 : BlockTrace),
      p < q →
      ((goExtract cwd ms st).2).get? p = some e1 →
      ((goExtract cwd ms st).2).get? q = some e2 →
      f ∈ traceWrites e1 → e2.resolved = some f →
      e2.singleOutcome = .dupSkip f := by
  intro ms
  induction ms with
  | nil =>
    intro st p q e1 e2 _ hp _ _ _
    simp [goExtract] at hp
  | cons m ms ih =>
    intro st p q e1 e2 hpq hp hq hw hres
    match q, hpq with
    | q' + 1, hpq =>
      simp only [goExtract, List.get?] at hp hq
      match p, hp with
      | 0, hp =>
        obtain rfl : (processBlock cwd st m).2 = e1 := Option.some.inj hp
        have hmem : e2 ∈ (goExtract cwd ms (processBlock cwd st m).1).2 :=
          List.get?_mem hq
        exact goExtract_dup cwd f ms (processBlock cwd st m).1
          (processBlock_writes_processed cwd st m f hw) e2 hmem hres
      | p' + 1, hp =>
        exact ih (processBlock cwd st m).1 p' q' e1 e2 (by omega) hp hq hw hres

/-- C7.  (i) Once a block has written a path, any later-processed
block of the same pass that resolves to the same inferred path is
dedup-skipped (so each inferred path is written at most once, by the
first-processed block resolving to it).  (ii) The trace is processed in
reverse text order, so the first-processed resolver is exactly the
last-occurring block in original text order: its body is what gets
written. -/
theorem c7_last_block_wins :
    (∀ (cwd text : String) (files0 : List String) (p q : Nat)
        (e1 e2 : BlockTrace) (f : String),
      p < q →
      ((extractRun cwd text files0).2).get? p = some e1 →
      ((extractRun cwd text files0).2).get? q = some e2 →
      f ∈ traceWrites e1 → e2.resolved = some f →
      e2.singleOutcome = .dupSkip f) ∧
    (∀ (cwd text : String) (files0 : List String),
      ((extractRun cwd text files0).2).map BlockTrace.idx =
        ((allFences text).reverse).map FenceMatch.idx) := by
  constructor
  · intro cwd text files0 p q e1 e2 f hpq hp hq hw hres
    exact goExtract_write_then_dup cwd f (allFences text).reverse
      { text := text, files := files0, processed := [], writes := [] }
      p q e1 e2 hpq hp hq hw hres
  · intro cwd text files0
    exact goExtract_idx cwd (allFences text).reverse _

set_option maxRecDepth 4000 in
/-- Witness for `c7_last_block_wins` on `c7text`: two blocks annotated
`### a.ts`; the later one (processed first) is written, the earlier one
is dedup-skipped. -/
theorem c7_last_block_wins_witness :
    ((extractRun "/w" c7text []).2).get? 0 = some c7e1 ∧
    ((extractRun "/w" c7text []).2).get? 1 = some c7e2 ∧
    c7e2.singleOutcome = .dupSkip "a.ts" :=
  ⟨rfl, rfl,
   c7_last_block_wins.1 "/w" c7text [] 0 1 c7e1 c7e2 "a.ts" (by omega) rfl rfl
     (by decide) rfl⟩

/-- C8.  A block whose language tag is shell/console-like and for
which neither the 500-character lookback nor the first-line comment
yields a file name is never written: the walk leaves the write list and
`filesModified` untouched, and the outcome recorded for the block is the shell skip (or
the size skip for tiny bodies) — no filename is ever invented. -/
theorem c8_shell_no_name_no_write (cwd : String) (st : ExtCore) (m : FenceMatch)
    (hsh : hasName shellLangs (langOf m) = true)
    (hinf : inferFileName (strSub st.text (m.idx - 500) m.idx) m.body = none) :
    (processBlock cwd st m).1.writes = st.writes ∧
    (processBlock cwd st m).1.files = st.files ∧
    ((processBlock cwd st m).2.singleOutcome = .shellSkip ∨
      (processBlock cwd st m).2.singleOutcome = .tooSmall) := by
  have hb := batchStep_not_json cwd st m (shell_ne_json hsh)
  unfold processBlock
  dsimp only
  rw [hb]
  dsimp only
  by_cases hsz : 50 < (jsTrim m.body).data.length
  · simp only [hsz, if_true, hinf, hsh]
    exact ⟨rfl, rfl, Or.inl rfl⟩
  · simp only [hsz, if_false]
    exact ⟨rfl, rfl, Or.inr rfl⟩

/-- Witness for `c8_shell_no_name_no_write` on the unlabeled `bash`
transcript of `c8text`. -/
theorem c8_shell_no_name_no_write_witness :
    (processBlock "/w" c8st c8m).1.writes = c8st.writes ∧
    (processBlock "/w" c8st c8m).1.files = c8st.files ∧
    ((processBlock "/w" c8st c8m).2.singleOutcome = .shellSkip ∨
      (processBlock "/w" c8st c8m).2.singleOutcome = .tooSmall) :=
  c8_shell_no_name_no_write "/w" c8st c8m rfl rfl

end Toolbox
